import Mathlib

/-!
Verification of `scripts/deploy_azure.py`: a deployment script that zips a
directory, uploads it to an Azure Kudu zipdeploy endpoint using credentials
from a publish-profile XML document, and polls the deployment status until a
terminal state or a timeout.

The Python source is shallowly embedded below:
* Python exceptions become the `PyError` type (constructor = exception class,
  argument = message); fallible code returns `Except PyError _`.
* HTTP traffic is a parameter: the upload response and the stream of poll
  responses are inputs to `deploy_zip`, which records the requests it issues
  and the lines it prints.
* Wall-clock time in the poll loop is modelled discretely: requests are
  instantaneous and each loop iteration ends with `time.sleep(2)`, so the
  elapsed time before iteration `k` is `2 * k` and the guard
  `time.time() - start < timeout` admits exactly `(timeout + 1) / 2`
  iterations (the iterations `k` with `2 * k < timeout`).
* The filesystem tree passed to `build_zip` is the inductive `FsTree`;
  `os.walk` is the function `walk`.
* `xml.etree.ElementTree` documents are the inductive `XmlElem`;
  `ET.fromstring` of malformed text raises `ParseError`, so
  `parse_publish_profile` receives `Option XmlElem` (`none` = malformed).
-/

/-- A raised Python exception: constructor = exception class, field = message. -/
inductive PyError where
  | runtimeError (msg : String)
  | xmlParseError (msg : String)
  | attributeError (msg : String)
deriving DecidableEq

/-- The Python class name of a raised exception (`type(e).__name__`). -/
def PyError.klass : PyError → String
  | .runtimeError _ => "RuntimeError"
  | .xmlParseError _ => "ParseError"
  | .attributeError _ => "AttributeError"

/-- An `xml.etree.ElementTree` element: tag, attributes, child elements. -/
inductive XmlElem where
  | node (tag : String) (attrs : List (String × String)) (children : List XmlElem)

def XmlElem.tag : XmlElem → String
  | .node t _ _ => t

def XmlElem.attrs : XmlElem → List (String × String)
  | .node _ a _ => a

def XmlElem.children : XmlElem → List XmlElem
  | .node _ _ c => c

/-- `elem.get(key)`: the value of attribute `key`, or `None` when absent. -/
def attrGet (e : XmlElem) (key : String) : Option String :=
  (e.attrs.find? (fun kv => kv.1 == key)).map (fun kv => kv.2)

/-- `root.findall(tag)`: the direct children of `root` whose tag is `tag`. -/
def findall (root : XmlElem) (tag : String) : List XmlElem :=
  root.children.filter (fun c => c.tag == tag)

/-- The dict returned by `parse_publish_profile` (deploy_azure.py lines 49-53);
each `elem.get` may return `None`, hence the `Option` fields. -/
structure Creds where
  publishUrl : Option String
  userName : Option String
  userPWD : Option String
deriving DecidableEq

/-- The dict literal built at deploy_azure.py lines 49-53 for a matching element. -/
def credsOf (pub : XmlElem) : Creds :=
  ⟨attrGet pub "publishUrl", attrGet pub "userName", attrGet pub "userPWD"⟩

/-- The `for pub in root.findall("publishProfile")` loop (lines 47-53): return
the credentials of the first element whose `publishMethod` is `MSDeploy`. -/
def msdeployLoop : List XmlElem → Except PyError Creds
  | [] => .error (.runtimeError "No MSDeploy publishProfile found in profile XML")
  | pub :: rest =>
    if attrGet pub "publishMethod" = some "MSDeploy" then .ok (credsOf pub)
    else msdeployLoop rest

/-- `parse_publish_profile` (deploy_azure.py lines 44-54). The argument is the
outcome of `ET.fromstring(xml_text)`: `none` when the text is malformed XML, in
which case the library raises `xml.etree.ElementTree.ParseError` before the
function body proper runs; `some root` when parsing succeeded. -/
def parse_publish_profile (etResult : Option XmlElem) : Except PyError Creds :=
  match etResult with
  | none => .error (.xmlParseError "syntax error")
  | some root => msdeployLoop (findall root "publishProfile")

/-- A `requests` HTTP response as used by the upload step: status code and body text. -/
structure HttpResp where
  status_code : Nat
  text : String
deriving DecidableEq

/-- A poll response: HTTP status, the `status` field of the JSON body
(`r.json().get("status")`, `none` when the key is absent), and the textual
form of the JSON payload `j` (what `print("Deployment failed:", j)` shows). -/
structure PollResp where
  status_code : Nat
  status : Option Int
  jrepr : String
deriving DecidableEq

inductive ReqMethod where
  | post
  | get
deriving DecidableEq

deriving instance DecidableEq for Except

/-- One HTTP request issued by the script: method, URL, basic-auth pair. -/
structure Request where
  method : ReqMethod
  url : String
  auth : Option String × Option String
deriving DecidableEq

/-- Observable outcome of the polling loop: the returned value or raised
exception, the GET requests issued, and the lines printed. -/
structure PollRun where
  result : Except PyError Bool
  requests : List Request
  printed : List String

/-- The polling loop of `deploy_zip` (deploy_azure.py lines 76-89).

`fuel` is the number of loop iterations the guard still admits: iteration `k`
runs iff `2 * k < timeout` (see the time model in the header), so the loop
body runs for `k = 0, 1, ...` while fuel remains, and fuel `0` is the guard
failing, i.e. `raise RuntimeError("Deployment status polling timed out")`. -/
def pollLoop (status_url : String) (auth : Option String × Option String)
    (polls : Nat → PollResp) : Nat → Nat → PollRun
  | 0, _ => ⟨.error (.runtimeError "Deployment status polling timed out"), [], []⟩
  | fuel + 1, k =>
    let r := polls k
    let req : Request := ⟨.get, status_url, auth⟩
    if r.status_code = 200 then
      if r.status = some 4 then
        ⟨.ok true, [req], ["Deployment succeeded"]⟩
      else if r.status = some 3 then
        ⟨.error (.runtimeError "Deployment failed"), [req],
          ["Deployment failed: " ++ r.jrepr]⟩
      else
        let rest := pollLoop status_url auth polls fuel (k + 1)
        ⟨rest.result, req :: rest.requests, rest.printed⟩
    else
      let rest := pollLoop status_url auth polls fuel (k + 1)
      ⟨rest.result, req :: rest.requests, rest.printed⟩

/-- `publish_url.split(":")[0]` (deploy_azure.py line 61): the text of
`publish_url` before its first colon (the whole string when it has none). -/
def site_of (publish_url : String) : String :=
  String.mk (publish_url.data.takeWhile (fun c => c ≠ ':'))

/-- Observable outcome of `deploy_zip`: result or exception, every HTTP
request issued (the POST upload followed by the status GETs), printed lines. -/
structure DeployRun where
  result : Except PyError Bool
  requests : List Request
  printed : List String

/-- `deploy_zip` (deploy_azure.py lines 57-89). The HTTP exchanges are inputs:
`uploadResp` is the response to the zip POST and `polls k` the response to the
`k`-th status GET. Accessing `publish_profile["publishUrl"]` yields a value
that may be `None`, and `None.split` raises `AttributeError`. -/
def deploy_zip (publish_profile : Creds) (uploadResp : HttpResp)
    (polls : Nat → PollResp) (timeout : Nat := 300) : DeployRun :=
  match publish_profile.publishUrl with
  | none => ⟨.error (.attributeError "NoneType object has no attribute split"), [], []⟩
  | some publish_url =>
    let site := site_of publish_url
    let kudu_url := "https://" ++ site ++ "/api/zipdeploy"
    let user := publish_profile.userName
    let pwd := publish_profile.userPWD
    let upReq : Request := ⟨.post, kudu_url, (user, pwd)⟩
    let upMsg := "Uploading zip to " ++ kudu_url ++ " ..."
    if uploadResp.status_code ≠ 200 ∧ uploadResp.status_code ≠ 202 then
      ⟨.error (.runtimeError
          ("Zip deploy failed: " ++ toString uploadResp.status_code ++ " " ++ uploadResp.text)),
        [upReq], [upMsg]⟩
    else
      let status_url := "https://" ++ site ++ "/api/deployments/latest"
      let pr := pollLoop status_url (user, pwd) polls ((timeout + 1) / 2) 0
      ⟨pr.result, upReq :: pr.requests, upMsg :: pr.printed⟩

/-- How the process ends: `sys.exit(code)`, an uncaught exception, or a
normal return from `main`. -/
inductive ExitOutcome where
  | exited (code : Nat)
  | raised (e : PyError)
  | finished
deriving DecidableEq

/-- Observable outcome of `main`: how the process exits and whether the
archive file still exists on disk at that point. -/
structure MainRun where
  outcome : ExitOutcome
  zipOnDisk : Bool
deriving DecidableEq

/-- The function `main` of deploy_azure.py (lines 92-129), from input resolution
onward (the name `main` itself is reserved by Lean for executables).

* `api_dir_exists` — whether `Path(args.api_dir)` exists (line 101).
* `profile_text` — `none` when neither `--publish-profile` nor the
  `AZURE_PUBLISH_PROFILE` env var supplies XML text (line 109); otherwise
  `some etRes` where `etRes` is the `ET.fromstring` outcome on that text.
* `buildRaises` — `some e` when `build_zip` raises `e`. The archive file is
  created before or at the start of `build_zip` (the `NamedTemporaryFile` with
  `delete=False` at line 119 creates it; with `--zip-output`, opening
  `zipfile.ZipFile(out_path, "w")` creates it), so after a `build_zip` failure
  the file is on disk — and lines 115-121 run before the `try` at line 123.
* `uploadResp`, `polls`, `timeout` — the inputs of `deploy_zip`.
* `unlinkRaises` — whether `zip_path.unlink()` in the `finally` raises; the
  `except Exception: pass` swallows it, leaving the file on disk. -/
def main_fn (api_dir_exists : Bool) (profile_text : Option (Option XmlElem))
    (buildRaises : Option PyError) (uploadResp : HttpResp)
    (polls : Nat → PollResp) (timeout : Nat) (unlinkRaises : Bool) : MainRun :=
  if api_dir_exists = false then ⟨.exited 2, false⟩
  else
    match profile_text with
    | none => ⟨.exited 2, false⟩
    | some etRes =>
      match parse_publish_profile etRes with
      | .error e => ⟨.raised e, false⟩
      | .ok publish_profile =>
        match buildRaises with
        | some e => ⟨.raised e, true⟩
        | none =>
          let dr := deploy_zip publish_profile uploadResp polls timeout
          let zipAfter := unlinkRaises
          match dr.result with
          | .ok _ => ⟨.finished, zipAfter⟩
          | .error e => ⟨.raised e, zipAfter⟩

/-- `needle` occurs verbatim inside `hay`. -/
def strContains (hay needle : String) : Prop :=
  ∃ a b, hay = a ++ needle ++ b

/-- Modelled from the spec: "derive the deployment host by stripping any
trailing port specifier from the endpoint string" — remove a trailing
colon-and-digits suffix when present, change nothing else. Stated only to be
compared with the source's `site_of`. -/
def specStripPort (s : String) : String :=
  let rev := s.data.reverse
  let ds := rev.takeWhile Char.isDigit
  match rev.drop ds.length with
  | ':' :: rest => if ds = [] then s else String.mk rest.reverse
  | _ => s

/-- A poll response that is neither terminal sentinel: the loop continues. -/
def nonTerminal (r : PollResp) : Prop :=
  r.status_code ≠ 200 ∨ (r.status ≠ some 4 ∧ r.status ≠ some 3)

example : site_of "waws-prod-blu-001.scm.azurewebsites.net:443"
    = "waws-prod-blu-001.scm.azurewebsites.net" := by decide
example : specStripPort "waws-prod-blu-001.scm.azurewebsites.net:443"
    = "waws-prod-blu-001.scm.azurewebsites.net" := by decide

/-! ### Helper lemmas about the polling loop -/

theorem pollLoop_continue (surl : String) (auth : Option String × Option String)
    (polls : Nat → PollResp) (fuel k : Nat) (h : nonTerminal (polls k)) :
    pollLoop surl auth polls (fuel + 1) k =
      ⟨(pollLoop surl auth polls fuel (k + 1)).result,
       ⟨.get, surl, auth⟩ :: (pollLoop surl auth polls fuel (k + 1)).requests,
       (pollLoop surl auth polls fuel (k + 1)).printed⟩ := by
  rcases h with h | ⟨h4, h3⟩
  · simp [pollLoop, h]
  · by_cases hc : (polls k).status_code = 200
    · simp [pollLoop, hc, h4, h3]
    · simp [pollLoop, hc]

theorem pollLoop_skip (surl : String) (auth : Option String × Option String)
    (polls : Nat → PollResp) (j : Nat) :
    ∀ (m k : Nat), (∀ i, i < j → nonTerminal (polls (k + i))) →
    pollLoop surl auth polls (j + m) k =
      ⟨(pollLoop surl auth polls m (k + j)).result,
       List.replicate j ⟨.get, surl, auth⟩ ++ (pollLoop surl auth polls m (k + j)).requests,
       (pollLoop surl auth polls m (k + j)).printed⟩ := by
  induction j with
  | zero => intro m k _; simp
  | succ j ih =>
    intro m k h
    have h0 : nonTerminal (polls k) := by
      have := h 0 (by omega)
      simpa using this
    rw [show j + 1 + m = (j + m) + 1 by omega, pollLoop_continue surl auth polls (j + m) k h0]
    have ih' := ih m (k + 1) (fun i hi => by
      have := h (i + 1) (by omega)
      rwa [show k + (i + 1) = k + 1 + i by omega] at this)
    rw [ih', show k + 1 + j = k + (j + 1) by omega]
    simp [List.replicate_succ]

theorem pollLoop_result_cases (surl : String) (auth : Option String × Option String)
    (polls : Nat → PollResp) :
    ∀ (fuel k : Nat),
    (pollLoop surl auth polls fuel k).result = .ok true ∨
    (pollLoop surl auth polls fuel k).result = .error (.runtimeError "Deployment failed") ∨
    (pollLoop surl auth polls fuel k).result
      = .error (.runtimeError "Deployment status polling timed out") := by
  intro fuel
  induction fuel with
  | zero => intro k; right; right; simp [pollLoop]
  | succ fuel ih =>
    intro k
    by_cases hc : (polls k).status_code = 200
    · by_cases h4 : (polls k).status = some 4
      · left; simp [pollLoop, hc, h4]
      · by_cases h3 : (polls k).status = some 3
        · right; left; simp [pollLoop, hc, h4, h3]
        · have := ih (k + 1)
          rw [pollLoop_continue surl auth polls fuel k (Or.inr ⟨h4, h3⟩)]
          simpa using this
    · have := ih (k + 1)
      rw [pollLoop_continue surl auth polls fuel k (Or.inl hc)]
      simpa using this

/-! ### String helper lemmas -/

theorem strContains_middle (a n b : String) : strContains (a ++ n ++ b) n :=
  ⟨a, b, rfl⟩

theorem strContains_right (a n : String) : strContains (a ++ n) n :=
  ⟨a, "", by simp⟩

theorem zipmsg_ne_failed (s : String) :
    ("Zip deploy failed: " ++ s) ≠ "Deployment failed" := by
  intro h
  have hl := congrArg String.length h
  rw [String.length_append] at hl
  have h1 : ("Zip deploy failed: ").length = 19 := by decide
  have h2 : ("Deployment failed").length = 17 := by decide
  omega

theorem zipmsg_ne_timeout (s : String) :
    ("Zip deploy failed: " ++ s) ≠ "Deployment status polling timed out" := by
  intro h
  have hl := congrArg String.length h
  rw [String.length_append] at hl
  have h1 : ("Zip deploy failed: ").length = 19 := by decide
  have h2 : ("Deployment status polling timed out").length = 35 := by decide
  have h3 : 0 ≤ s.length := Nat.zero_le _
  -- 19 + s.length = 35 is possible; compare first characters instead
  have hd := congrArg String.data h
  rw [String.data_append] at hd
  have : ("Zip deploy failed: ").data
      = 'Z' :: ("ip deploy failed: ").data := by decide
  rw [this] at hd
  have : ("Deployment status polling timed out").data
      = 'D' :: ("eployment status polling timed out").data := by decide
  rw [this] at hd
  exact absurd (List.head_eq_of_cons_eq hd) (by decide)

/-! ### Claim C1 -/

/-- C1: for every upload HTTP response, the upload step of `deploy_zip`
succeeds (control proceeds to polling, and no "Zip deploy failed" error is
ever raised) if and only if the response status code is 200 or 202; for any
other status code the run fails with a `RuntimeError` whose message contains
the status code and the response body text verbatim, and no status request is
issued. -/
theorem C1_upload_accepts_200_202 (publish_profile : Creds) (u : String)
    (hpp : publish_profile.publishUrl = some u)
    (uploadResp : HttpResp) (polls : Nat → PollResp) (timeout : Nat) :
    ((uploadResp.status_code = 200 ∨ uploadResp.status_code = 202) →
        (deploy_zip publish_profile uploadResp polls timeout).result =
          (pollLoop ("https://" ++ site_of u ++ "/api/deployments/latest")
            (publish_profile.userName, publish_profile.userPWD) polls
            ((timeout + 1) / 2) 0).result ∧
        ∀ s : String,
          (deploy_zip publish_profile uploadResp polls timeout).result ≠
            .error (.runtimeError ("Zip deploy failed: " ++ s))) ∧
    (¬ (uploadResp.status_code = 200 ∨ uploadResp.status_code = 202) →
        (deploy_zip publish_profile uploadResp polls timeout).result =
          .error (.runtimeError ("Zip deploy failed: "
            ++ toString uploadResp.status_code ++ " " ++ uploadResp.text)) ∧
        strContains ("Zip deploy failed: " ++ toString uploadResp.status_code
            ++ " " ++ uploadResp.text) (toString uploadResp.status_code) ∧
        strContains ("Zip deploy failed: " ++ toString uploadResp.status_code
            ++ " " ++ uploadResp.text) uploadResp.text ∧
        (deploy_zip publish_profile uploadResp polls timeout).requests =
          [⟨.post, "https://" ++ site_of u ++ "/api/zipdeploy",
            (publish_profile.userName, publish_profile.userPWD)⟩]) := by
  constructor
  · intro hok
    have hcond : ¬ (uploadResp.status_code ≠ 200 ∧ uploadResp.status_code ≠ 202) := by
      tauto
    constructor
    · simp [deploy_zip, hpp, hcond]
    · intro s
      have heq : (deploy_zip publish_profile uploadResp polls timeout).result =
          (pollLoop ("https://" ++ site_of u ++ "/api/deployments/latest")
            (publish_profile.userName, publish_profile.userPWD) polls
            ((timeout + 1) / 2) 0).result := by
        simp [deploy_zip, hpp, hcond]
      rw [heq]
      rcases pollLoop_result_cases ("https://" ++ site_of u ++ "/api/deployments/latest")
          (publish_profile.userName, publish_profile.userPWD) polls ((timeout + 1) / 2) 0
        with h | h | h <;> rw [h] <;> simp
      · exact fun hm => zipmsg_ne_failed s hm.symm
      · exact fun hm => zipmsg_ne_timeout s hm.symm
  · intro hbad
    have hcond : uploadResp.status_code ≠ 200 ∧ uploadResp.status_code ≠ 202 := by
      tauto
    refine ⟨by simp [deploy_zip, hpp, hcond], ?_, ?_, by simp [deploy_zip, hpp, hcond]⟩
    · exact ⟨"Zip deploy failed: ", " " ++ uploadResp.text, by
        simp [String.append_assoc]⟩
    · exact ⟨"Zip deploy failed: " ++ toString uploadResp.status_code ++ " ", "", by
        simp⟩

/-- Witness for C1 at a concrete failing upload (HTTP 500). -/
theorem C1_witness :
    (((500 : Nat) = 200 ∨ (500 : Nat) = 202) →
        (deploy_zip ⟨some "app.scm.net:443", some "user", some "pw"⟩
            ⟨500, "Internal Server Error"⟩ (fun _ => ⟨200, some 0, "pending"⟩) 300).result =
          (pollLoop ("https://" ++ site_of "app.scm.net:443" ++ "/api/deployments/latest")
            ((⟨some "app.scm.net:443", some "user", some "pw"⟩ : Creds).userName,
             (⟨some "app.scm.net:443", some "user", some "pw"⟩ : Creds).userPWD)
            (fun _ => ⟨200, some 0, "pending"⟩) ((300 + 1) / 2) 0).result ∧
        ∀ s : String,
          (deploy_zip ⟨some "app.scm.net:443", some "user", some "pw"⟩
              ⟨500, "Internal Server Error"⟩ (fun _ => ⟨200, some 0, "pending"⟩) 300).result ≠
            .error (.runtimeError ("Zip deploy failed: " ++ s))) ∧
    (¬ ((500 : Nat) = 200 ∨ (500 : Nat) = 202) →
        (deploy_zip ⟨some "app.scm.net:443", some "user", some "pw"⟩
            ⟨500, "Internal Server Error"⟩ (fun _ => ⟨200, some 0, "pending"⟩) 300).result =
          .error (.runtimeError ("Zip deploy failed: "
            ++ toString (500 : Nat) ++ " " ++ "Internal Server Error")) ∧
        strContains ("Zip deploy failed: " ++ toString (500 : Nat)
            ++ " " ++ "Internal Server Error") (toString (500 : Nat)) ∧
        strContains ("Zip deploy failed: " ++ toString (500 : Nat)
            ++ " " ++ "Internal Server Error") "Internal Server Error" ∧
        (deploy_zip ⟨some "app.scm.net:443", some "user", some "pw"⟩
            ⟨500, "Internal Server Error"⟩ (fun _ => ⟨200, some 0, "pending"⟩) 300).requests =
          [⟨.post, "https://" ++ site_of "app.scm.net:443" ++ "/api/zipdeploy",
            ((⟨some "app.scm.net:443", some "user", some "pw"⟩ : Creds).userName,
             (⟨some "app.scm.net:443", some "user", some "pw"⟩ : Creds).userPWD)⟩]) :=
  C1_upload_accepts_200_202 ⟨some "app.scm.net:443", some "user", some "pw"⟩
    "app.scm.net:443" rfl ⟨500, "Internal Server Error"⟩
    (fun _ => ⟨200, some 0, "pending"⟩) 300

/-! ### Claim C2 -/

/-- C2: for the poll-response sequence with statuses 0, 0, 4 the polling phase
of `deploy_zip` returns success after exactly three status fetches — the run
issues one POST (the upload) followed by exactly three GETs and nothing more —
and, in general, any poll response whose HTTP status is not 200 or whose
`status` field is neither the success sentinel 4 nor the failure sentinel 3
makes the loop continue to the next iteration. -/
theorem C2_three_polls_then_success (publish_profile : Creds) (u : String)
    (hpp : publish_profile.publishUrl = some u)
    (uploadResp : HttpResp)
    (hup : uploadResp.status_code = 200 ∨ uploadResp.status_code = 202)
    (polls : Nat → PollResp) (timeout : Nat) (htime : 4 < timeout)
    (j0 j1 j2 : String)
    (h0 : polls 0 = ⟨200, some 0, j0⟩)
    (h1 : polls 1 = ⟨200, some 0, j1⟩)
    (h2 : polls 2 = ⟨200, some 4, j2⟩) :
    ((deploy_zip publish_profile uploadResp polls timeout).result = .ok true ∧
     (deploy_zip publish_profile uploadResp polls timeout).requests =
       [⟨.post, "https://" ++ site_of u ++ "/api/zipdeploy",
          (publish_profile.userName, publish_profile.userPWD)⟩,
        ⟨.get, "https://" ++ site_of u ++ "/api/deployments/latest",
          (publish_profile.userName, publish_profile.userPWD)⟩,
        ⟨.get, "https://" ++ site_of u ++ "/api/deployments/latest",
          (publish_profile.userName, publish_profile.userPWD)⟩,
        ⟨.get, "https://" ++ site_of u ++ "/api/deployments/latest",
          (publish_profile.userName, publish_profile.userPWD)⟩]) ∧
    (∀ (surl : String) (auth : Option String × Option String)
        (q : Nat → PollResp) (fuel k : Nat), nonTerminal (q k) →
        pollLoop surl auth q (fuel + 1) k =
          ⟨(pollLoop surl auth q fuel (k + 1)).result,
           ⟨.get, surl, auth⟩ :: (pollLoop surl auth q fuel (k + 1)).requests,
           (pollLoop surl auth q fuel (k + 1)).printed⟩) := by
  have hcond : ¬ (uploadResp.status_code ≠ 200 ∧ uploadResp.status_code ≠ 202) := by
    tauto
  obtain ⟨m, hm⟩ : ∃ m, (timeout + 1) / 2 = m + 3 := ⟨(timeout + 1) / 2 - 3, by omega⟩
  refine ⟨⟨?_, ?_⟩, fun surl auth q fuel k h => pollLoop_continue surl auth q fuel k h⟩ <;>
    simp only [deploy_zip, hpp, hcond, if_false] <;>
    rw [hm] <;>
    simp [pollLoop, h0, h1, h2]

/-- Concrete poll stream for the C2 witness: statuses 0, 0, 4. -/
def pollsSeqA : Nat → PollResp :=
  fun k => if k = 2 then ⟨200, some 4, "done"⟩ else ⟨200, some 0, "pending"⟩

/-- Witness for C2 at the concrete stream `pollsSeqA` with timeout 300. -/
theorem C2_witness :
    ((deploy_zip ⟨some "app.scm.net:443", some "user", some "pw"⟩ ⟨200, "Accepted"⟩
        pollsSeqA 300).result = .ok true ∧
     (deploy_zip ⟨some "app.scm.net:443", some "user", some "pw"⟩ ⟨200, "Accepted"⟩
        pollsSeqA 300).requests =
       [⟨.post, "https://" ++ site_of "app.scm.net:443" ++ "/api/zipdeploy",
          (some "user", some "pw")⟩,
        ⟨.get, "https://" ++ site_of "app.scm.net:443" ++ "/api/deployments/latest",
          (some "user", some "pw")⟩,
        ⟨.get, "https://" ++ site_of "app.scm.net:443" ++ "/api/deployments/latest",
          (some "user", some "pw")⟩,
        ⟨.get, "https://" ++ site_of "app.scm.net:443" ++ "/api/deployments/latest",
          (some "user", some "pw")⟩]) ∧
    (∀ (surl : String) (auth : Option String × Option String)
        (q : Nat → PollResp) (fuel k : Nat), nonTerminal (q k) →
        pollLoop surl auth q (fuel + 1) k =
          ⟨(pollLoop surl auth q fuel (k + 1)).result,
           ⟨.get, surl, auth⟩ :: (pollLoop surl auth q fuel (k + 1)).requests,
           (pollLoop surl auth q fuel (k + 1)).printed⟩) :=
  C2_three_polls_then_success ⟨some "app.scm.net:443", some "user", some "pw"⟩
    "app.scm.net:443" rfl ⟨200, "Accepted"⟩ (Or.inl rfl) pollsSeqA 300 (by omega)
    "pending" "pending" "done" rfl rfl rfl

/-! ### Claim C3 -/

/-- Poll stream whose every response carries the failure sentinel status 3. -/
def pollsFail3 : Nat → PollResp :=
  fun _ => ⟨200, some 3, "status equals 3 payload"⟩

/-- Counterexample to C3 as stated: on a status-3 response the exception
raised is `RuntimeError("Deployment failed")`, whose message does not contain
the failing response payload — the payload only reaches standard output via
`print("Deployment failed:", j)`. -/
theorem C3_counterexample :
    (deploy_zip ⟨some "app.scm.net:443", some "user", some "pw"⟩ ⟨200, "ok"⟩
        pollsFail3 300).result = .error (.runtimeError "Deployment failed") ∧
    ¬ strContains "Deployment failed" "status equals 3 payload" ∧
    ("Deployment failed: " ++ "status equals 3 payload") ∈
      (deploy_zip ⟨some "app.scm.net:443", some "user", some "pw"⟩ ⟨200, "ok"⟩
        pollsFail3 300).printed := by
  refine ⟨by decide, ?_, by decide⟩
  rintro ⟨a, b, hab⟩
  have hl := congrArg String.length hab
  rw [String.length_append, String.length_append] at hl
  have h1 : ("Deployment failed").length = 17 := by decide
  have h2 : ("status equals 3 payload").length = 23 := by decide
  omega

/-- C3 (amended): when the poll response of fetch cycle `k` carries the
failure sentinel status 3 (all earlier cycles being non-terminal and the
timeout window still open), `deploy_zip` fails on that same cycle — exactly
`k + 1` status GETs are issued, however large the timeout — with
`RuntimeError("Deployment failed")`; the failing payload is printed to
standard output for diagnostics rather than included in the raised error. -/
theorem C3_fail_sentinel_immediate (publish_profile : Creds) (u : String)
    (hpp : publish_profile.publishUrl = some u)
    (uploadResp : HttpResp)
    (hup : uploadResp.status_code = 200 ∨ uploadResp.status_code = 202)
    (polls : Nat → PollResp) (timeout k : Nat) (pay : String)
    (hpre : ∀ i, i < k → nonTerminal (polls i))
    (hk : polls k = ⟨200, some 3, pay⟩)
    (htime : 2 * k < timeout) :
    (deploy_zip publish_profile uploadResp polls timeout).result
        = .error (.runtimeError "Deployment failed") ∧
    (deploy_zip publish_profile uploadResp polls timeout).requests.length = k + 2 ∧
    ("Deployment failed: " ++ pay) ∈
      (deploy_zip publish_profile uploadResp polls timeout).printed := by
  have hcond : ¬ (uploadResp.status_code ≠ 200 ∧ uploadResp.status_code ≠ 202) := by
    tauto
  obtain ⟨m, hm⟩ : ∃ m, (timeout + 1) / 2 = k + (m + 1) :=
    ⟨(timeout + 1) / 2 - k - 1, by omega⟩
  have hskip := pollLoop_skip ("https://" ++ site_of u ++ "/api/deployments/latest")
    (publish_profile.userName, publish_profile.userPWD) polls k (m + 1) 0
    (fun i hi => by simpa using hpre i hi)
  refine ⟨?_, ?_, ?_⟩ <;>
    simp only [deploy_zip, hpp, hcond, if_false] <;>
    rw [hm, hskip] <;>
    simp [pollLoop, hk, List.length_replicate]

/-- Concrete poll stream for the C3 witness: two pending cycles, then status 3. -/
def pollsSeqB : Nat → PollResp :=
  fun i => if i < 2 then ⟨200, some 0, "pending"⟩ else ⟨200, some 3, "failure payload"⟩

/-- Witness for the amended C3 at the concrete stream `pollsSeqB`. -/
theorem C3_witness :
    (deploy_zip ⟨some "app.scm.net:443", some "user", some "pw"⟩ ⟨202, "Accepted"⟩
        pollsSeqB 300).result = .error (.runtimeError "Deployment failed") ∧
    (deploy_zip ⟨some "app.scm.net:443", some "user", some "pw"⟩ ⟨202, "Accepted"⟩
        pollsSeqB 300).requests.length = 2 + 2 ∧
    ("Deployment failed: " ++ "failure payload") ∈
      (deploy_zip ⟨some "app.scm.net:443", some "user", some "pw"⟩ ⟨202, "Accepted"⟩
        pollsSeqB 300).printed :=
  C3_fail_sentinel_immediate ⟨some "app.scm.net:443", some "user", some "pw"⟩
    "app.scm.net:443" rfl ⟨202, "Accepted"⟩ (Or.inr rfl) pollsSeqB 300 2 "failure payload"
    (fun i hi => by
      have hcase : i = 0 ∨ i = 1 := by omega
      rcases hcase with h | h <;> subst h <;> simp [nonTerminal, pollsSeqB])
    (by decide) (by omega)

/-! ### Claim C4 -/

/-- Poll stream that never reaches a terminal status. -/
def pollsPending : Nat → PollResp :=
  fun _ => ⟨200, some 0, "pending"⟩

/-- Counterexample to C4 as stated: with timeout 2 and only non-terminal
responses the run fails with the timeout error, and with a status-3 response
it fails with the deployment-failure error — but the two errors have the same
Python exception class, `RuntimeError`, not distinct classes. -/
theorem C4_counterexample :
    (deploy_zip ⟨some "app.scm.net:443", some "user", some "pw"⟩ ⟨200, "ok"⟩
        pollsPending 2).result
      = .error (.runtimeError "Deployment status polling timed out") ∧
    (deploy_zip ⟨some "app.scm.net:443", some "user", some "pw"⟩ ⟨200, "ok"⟩
        pollsFail3 2).result
      = .error (.runtimeError "Deployment failed") ∧
    (PyError.runtimeError "Deployment status polling timed out").klass
      = (PyError.runtimeError "Deployment failed").klass := by
  refine ⟨by decide, by decide, rfl⟩

/-- C4 (amended): when no terminal status is observed within the timeout
window, `deploy_zip` fails with `RuntimeError("Deployment status polling
timed out")` — a message distinct from the deployment-failure message
`"Deployment failed"`, though the exception class is the same `RuntimeError`
in both cases. -/
theorem C4_timeout_error (publish_profile : Creds) (u : String)
    (hpp : publish_profile.publishUrl = some u)
    (uploadResp : HttpResp)
    (hup : uploadResp.status_code = 200 ∨ uploadResp.status_code = 202)
    (polls : Nat → PollResp) (timeout : Nat)
    (hall : ∀ i, 2 * i < timeout → nonTerminal (polls i)) :
    (deploy_zip publish_profile uploadResp polls timeout).result
        = .error (.runtimeError "Deployment status polling timed out") ∧
    "Deployment status polling timed out" ≠ "Deployment failed" ∧
    (PyError.runtimeError "Deployment status polling timed out").klass
      = (PyError.runtimeError "Deployment failed").klass := by
  have hcond : ¬ (uploadResp.status_code ≠ 200 ∧ uploadResp.status_code ≠ 202) := by
    tauto
  have hskip := pollLoop_skip ("https://" ++ site_of u ++ "/api/deployments/latest")
    (publish_profile.userName, publish_profile.userPWD) polls ((timeout + 1) / 2) 0 0
    (fun i hi => by
      have : 2 * i < timeout := by omega
      simpa using hall i this)
  refine ⟨?_, by decide, rfl⟩
  simp only [deploy_zip, hpp, hcond, if_false]
  rw [show (timeout + 1) / 2 = (timeout + 1) / 2 + 0 by omega, hskip]
  simp [pollLoop]

/-- Witness for the amended C4: timeout 2, every response pending. -/
theorem C4_witness :
    (deploy_zip ⟨some "app.scm.net:443", some "user", some "pw"⟩ ⟨200, "ok"⟩
        pollsPending 2).result
        = .error (.runtimeError "Deployment status polling timed out") ∧
    "Deployment status polling timed out" ≠ "Deployment failed" ∧
    (PyError.runtimeError "Deployment status polling timed out").klass
      = (PyError.runtimeError "Deployment failed").klass :=
  C4_timeout_error ⟨some "app.scm.net:443", some "user", some "pw"⟩
    "app.scm.net:443" rfl ⟨200, "ok"⟩ (Or.inl rfl) pollsPending 2
    (fun i hi => by
      have hz : i = 0 := by omega
      subst hz
      simp [nonTerminal, pollsPending])

/-! ### Claims C7, C8, C10 — the profile parser -/

theorem msdeployLoop_skip_nonmatching (pre : List XmlElem)
    (hpre : ∀ q ∈ pre, attrGet q "publishMethod" ≠ some "MSDeploy") :
    ∀ rest, msdeployLoop (pre ++ rest) = msdeployLoop rest := by
  induction pre with
  | nil => intro rest; rfl
  | cons q pre ih =>
    intro rest
    have hq : attrGet q "publishMethod" ≠ some "MSDeploy" := hpre q (by simp)
    rw [List.cons_append]
    simp only [msdeployLoop, hq, if_false]
    exact ih (fun p hp => hpre p (by simp [hp])) rest

/-- C7: for a well-formed document whose `publishProfile` children split as
`pre ++ pub :: post` with no element of `pre` matching `MSDeploy` and `pub`
matching, the parser returns exactly `pub`'s `publishUrl`, `userName` and
`userPWD` attributes, ignoring every other profile element. -/
theorem C7_first_matching_profile (root pub : XmlElem) (pre post : List XmlElem)
    (hsplit : findall root "publishProfile" = pre ++ pub :: post)
    (hpre : ∀ q ∈ pre, attrGet q "publishMethod" ≠ some "MSDeploy")
    (hpub : attrGet pub "publishMethod" = some "MSDeploy") :
    parse_publish_profile (some root) =
      .ok ⟨attrGet pub "publishUrl", attrGet pub "userName", attrGet pub "userPWD"⟩ := by
  show msdeployLoop (findall root "publishProfile") = _
  rw [hsplit, msdeployLoop_skip_nonmatching pre hpre]
  simp [msdeployLoop, hpub, credsOf]

/-- Concrete two-profile document for the C7 witness: an FTP profile followed
by the MSDeploy profile. -/
def ftpProfileA : XmlElem :=
  .node "publishProfile"
    [("publishMethod", "FTP"), ("publishUrl", "ftp://ftphost"),
     ("userName", "ftpuser"), ("userPWD", "ftppw")] []

def msdProfileA : XmlElem :=
  .node "publishProfile"
    [("publishMethod", "MSDeploy"), ("publishUrl", "app.scm.net:443"),
     ("userName", "msduser"), ("userPWD", "msdpw")] []

def xmlDocA : XmlElem :=
  .node "publishData" [] [ftpProfileA, msdProfileA]

/-- Witness for C7 on `xmlDocA`: the FTP profile is skipped and the MSDeploy
profile attributes are returned. -/
theorem C7_witness :
    parse_publish_profile (some xmlDocA) =
      .ok ⟨attrGet msdProfileA "publishUrl", attrGet msdProfileA "userName",
           attrGet msdProfileA "userPWD"⟩ :=
  C7_first_matching_profile xmlDocA msdProfileA [ftpProfileA] []
    rfl
    (fun q hq => by
      rw [List.mem_singleton] at hq
      subst hq
      decide)
    (by decide)

/-- Counterexample to C8 as stated: on malformed XML the exception that
propagates out of `parse_publish_profile` is the XML library's `ParseError`,
not the domain `RuntimeError("No MSDeploy publishProfile found in profile
XML")` — the two errors have different Python classes. -/
theorem C8_counterexample :
    parse_publish_profile none = .error (.xmlParseError "syntax error") ∧
    (∀ m : String, parse_publish_profile none ≠ .error (.runtimeError m)) ∧
    (PyError.xmlParseError "syntax error").klass
      ≠ (PyError.runtimeError "No MSDeploy publishProfile found in profile XML").klass := by
  refine ⟨rfl, ?_, by decide⟩
  intro m h
  simp [parse_publish_profile] at h

/-- C8 (amended): the parser fails with the domain
`RuntimeError("No MSDeploy publishProfile found in profile XML")` when the XML
is well-formed but contains no profile with publish method `MSDeploy`; on
malformed XML it instead fails with the XML library's `ParseError`, a
different exception class. -/
theorem C8_no_match_or_malformed (etRes : Option XmlElem) :
    (∀ root, etRes = some root →
        (∀ q ∈ findall root "publishProfile",
            attrGet q "publishMethod" ≠ some "MSDeploy") →
        parse_publish_profile etRes =
          .error (.runtimeError "No MSDeploy publishProfile found in profile XML")) ∧
    (etRes = none →
        parse_publish_profile etRes = .error (.xmlParseError "syntax error") ∧
        (PyError.xmlParseError "syntax error").klass ≠ (PyError.runtimeError
          "No MSDeploy publishProfile found in profile XML").klass) := by
  constructor
  · intro root hsome hnone
    subst hsome
    show msdeployLoop (findall root "publishProfile") = _
    have : findall root "publishProfile" = findall root "publishProfile" ++ [] := by simp
    rw [this, msdeployLoop_skip_nonmatching _ hnone]
    rfl
  · intro hnone
    subst hnone
    exact ⟨rfl, by decide⟩

/-- Well-formed document with no MSDeploy profile, for the C8 witness. -/
def xmlDocB : XmlElem :=
  .node "publishData" [] [ftpProfileA]

/-- Witness for the amended C8 on `xmlDocB`. -/
theorem C8_witness :
    (∀ root, (some xmlDocB : Option XmlElem) = some root →
        (∀ q ∈ findall root "publishProfile",
            attrGet q "publishMethod" ≠ some "MSDeploy") →
        parse_publish_profile (some xmlDocB) =
          .error (.runtimeError "No MSDeploy publishProfile found in profile XML")) ∧
    ((some xmlDocB : Option XmlElem) = none →
        parse_publish_profile (some xmlDocB) = .error (.xmlParseError "syntax error") ∧
        (PyError.xmlParseError "syntax error").klass ≠ (PyError.runtimeError
          "No MSDeploy publishProfile found in profile XML").klass) :=
  C8_no_match_or_malformed (some xmlDocB)

/-- Profile matching MSDeploy but carrying none of the three credential
attributes, for C10. -/
def msdProfileBare : XmlElem :=
  .node "publishProfile" [("publishMethod", "MSDeploy")] []

/-- C10: when the first matching profile lacks any of the three expected
attributes, the parser still succeeds and returns a credential set in which
each missing attribute is `none`. -/
theorem C10_missing_attributes_are_none (root pub : XmlElem) (pre post : List XmlElem)
    (hsplit : findall root "publishProfile" = pre ++ pub :: post)
    (hpre : ∀ q ∈ pre, attrGet q "publishMethod" ≠ some "MSDeploy")
    (hpub : attrGet pub "publishMethod" = some "MSDeploy") :
    ∃ c : Creds, parse_publish_profile (some root) = .ok c ∧
      (attrGet pub "publishUrl" = none → c.publishUrl = none) ∧
      (attrGet pub "userName" = none → c.userName = none) ∧
      (attrGet pub "userPWD" = none → c.userPWD = none) := by
  refine ⟨credsOf pub, ?_, fun h => h, fun h => h, fun h => h⟩
  show msdeployLoop (findall root "publishProfile") = _
  rw [hsplit, msdeployLoop_skip_nonmatching pre hpre]
  simp [msdeployLoop, hpub]

/-- Witness for C10: a document whose only profile matches MSDeploy and has
no `publishUrl`, `userName` or `userPWD` attribute. -/
theorem C10_witness :
    ∃ c : Creds,
      parse_publish_profile (some (.node "publishData" [] [msdProfileBare])) = .ok c ∧
      (attrGet msdProfileBare "publishUrl" = none → c.publishUrl = none) ∧
      (attrGet msdProfileBare "userName" = none → c.userName = none) ∧
      (attrGet msdProfileBare "userPWD" = none → c.userPWD = none) :=
  C10_missing_attributes_are_none (.node "publishData" [] [msdProfileBare])
    msdProfileBare [] [] rfl (fun q hq => absurd hq (List.not_mem_nil q)) (by decide)

/-! ### Claim C9 -/

theorem pollLoop_requests_all_get (surl : String)
    (auth : Option String × Option String) (polls : Nat → PollResp) :
    ∀ fuel k, ∀ r ∈ (pollLoop surl auth polls fuel k).requests,
      r = ⟨.get, surl, auth⟩ := by
  intro fuel
  induction fuel with
  | zero => intro k r hr; simp [pollLoop] at hr
  | succ fuel ih =>
    intro k r hr
    by_cases hc : (polls k).status_code = 200
    · by_cases h4 : (polls k).status = some 4
      · simp [pollLoop, hc, h4] at hr; exact hr
      · by_cases h3 : (polls k).status = some 3
        · simp [pollLoop, hc, h4, h3] at hr; exact hr
        · rw [pollLoop_continue surl auth polls fuel k (Or.inr ⟨h4, h3⟩)] at hr
          rcases List.mem_cons.mp hr with h | h
          · exact h
          · exact ih (k + 1) r h
    · rw [pollLoop_continue surl auth polls fuel k (Or.inl hc)] at hr
      rcases List.mem_cons.mp hr with h | h
      · exact h
      · exact ih (k + 1) r h

theorem takeWhile_append_all {α : Type} (p : α → Bool) :
    ∀ (xs ys : List α), (∀ c ∈ xs, p c = true) →
      List.takeWhile p (xs ++ ys) = xs ++ List.takeWhile p ys := by
  intro xs
  induction xs with
  | nil => intro ys _; simp
  | cons x xs ih =>
    intro ys h
    have hx : p x = true := h x (by simp)
    simp [List.takeWhile, hx]
    exact ih ys (fun c hc => h c (by simp [hc]))

theorem takeWhile_all {α : Type} (p : α → Bool) :
    ∀ (xs : List α), (∀ c ∈ xs, p c = true) → List.takeWhile p xs = xs := by
  intro xs
  induction xs with
  | nil => intro _; simp
  | cons x xs ih =>
    intro h
    have hx : p x = true := h x (by simp)
    simp only [List.takeWhile_cons, hx, if_true]
    rw [ih (fun c hc => h c (by simp [hc]))]

/-- Counterexample to C9 as stated: for the endpoint string `"a:b:443"` the
code takes the text before the *first* colon, host `"a"`, whereas removing
only the trailing port specifier would give `"a:b"`; the upload URL actually
used is `https://a/api/zipdeploy`. -/
theorem C9_counterexample :
    site_of "a:b:443" = "a" ∧
    specStripPort "a:b:443" = "a:b" ∧
    ("a" : String) ≠ "a:b" ∧
    (deploy_zip ⟨some "a:b:443", some "user", some "pw"⟩ ⟨500, "err"⟩
        pollsPending 300).requests =
      [⟨.post, "https://a/api/zipdeploy", (some "user", some "pw")⟩] :=
  ⟨by decide, by decide, by decide, by decide⟩

/-- C9 (amended): the deployment host is the endpoint string up to (and
excluding) its first colon — which coincides with stripping the trailing port
specifier whenever the only colon is the port separator, and is the whole
string when there is no colon — and every request `deploy_zip` issues goes to
`https://<host>/api/zipdeploy` (the POST) or
`https://<host>/api/deployments/latest` (the status GETs). -/
theorem C9_host_and_urls (publish_profile : Creds) (u : String)
    (hpp : publish_profile.publishUrl = some u)
    (uploadResp : HttpResp) (polls : Nat → PollResp) (timeout : Nat) :
    (∀ r ∈ (deploy_zip publish_profile uploadResp polls timeout).requests,
        (r.method = .post → r.url = "https://" ++ site_of u ++ "/api/zipdeploy") ∧
        (r.method = .get → r.url = "https://" ++ site_of u ++ "/api/deployments/latest")) ∧
    (∀ a b : String, u = a ++ ":" ++ b → (∀ c ∈ a.data, c ≠ ':') → site_of u = a) ∧
    ((∀ c ∈ u.data, c ≠ ':') → site_of u = u) := by
  refine ⟨?_, ?_, ?_⟩
  · intro r hr
    by_cases hcond : uploadResp.status_code ≠ 200 ∧ uploadResp.status_code ≠ 202
    · simp [deploy_zip, hpp, hcond] at hr
      subst hr
      exact ⟨fun _ => rfl, by simp⟩
    · simp only [deploy_zip, hpp, hcond, if_false] at hr
      rcases List.mem_cons.mp hr with h | h
      · subst h
        exact ⟨fun _ => rfl, by simp⟩
      · have := pollLoop_requests_all_get
          ("https://" ++ site_of u ++ "/api/deployments/latest")
          (publish_profile.userName, publish_profile.userPWD) polls
          ((timeout + 1) / 2) 0 r h
        subst this
        exact ⟨by simp, fun _ => rfl⟩
  · intro a b hu ha
    subst hu
    show String.mk (List.takeWhile _ (a ++ ":" ++ b).data) = a
    rw [String.data_append, String.data_append]
    have hcolon : (":" : String).data = [':'] := rfl
    rw [hcolon, List.append_assoc, List.singleton_append]
    rw [takeWhile_append_all (fun c => decide (c ≠ ':')) a.data (':' :: b.data)
      (fun c hc => by simpa using ha c hc)]
    simp [List.takeWhile_cons]
  · intro ha
    show String.mk (List.takeWhile _ u.data) = u
    rw [takeWhile_all (fun c => decide (c ≠ ':')) u.data
      (fun c hc => by simpa using ha c hc)]

/-- Witness for the amended C9 at the endpoint `"waws.scm.net:443"`. -/
theorem C9_witness :
    (∀ r ∈ (deploy_zip ⟨some "waws.scm.net:443", some "user", some "pw"⟩
          ⟨200, "ok"⟩ pollsPending 2).requests,
        (r.method = .post →
          r.url = "https://" ++ site_of "waws.scm.net:443" ++ "/api/zipdeploy") ∧
        (r.method = .get →
          r.url = "https://" ++ site_of "waws.scm.net:443" ++ "/api/deployments/latest")) ∧
    (∀ a b : String, "waws.scm.net:443" = a ++ ":" ++ b →
        (∀ c ∈ a.data, c ≠ ':') → site_of "waws.scm.net:443" = a) ∧
    ((∀ c ∈ ("waws.scm.net:443" : String).data, c ≠ ':') →
        site_of "waws.scm.net:443" = "waws.scm.net:443") :=
  C9_host_and_urls ⟨some "waws.scm.net:443", some "user", some "pw"⟩
    "waws.scm.net:443" rfl ⟨200, "ok"⟩ pollsPending 2

/-! ### Claim C5 -/

/-- Counterexample to C5 as stated: `build_zip` runs at lines 117/121, before
the `try`/`finally` at lines 123-129, so a fatal error during the archiving
step propagates without the cleanup running and the archive file created for
the run is still on disk when the process exits. -/
theorem C5_counterexample :
    (main_fn true (some (some xmlDocA)) (some (.runtimeError "walk failed"))
        ⟨200, "ok"⟩ pollsSeqA 300 false).outcome
      = .raised (.runtimeError "walk failed") ∧
    (main_fn true (some (some xmlDocA)) (some (.runtimeError "walk failed"))
        ⟨200, "ok"⟩ pollsSeqA 300 false).zipOnDisk = true := by
  constructor
  · rfl
  · rfl

/-- C5 (amended): once the archiving step has succeeded, the archive file is
deleted before the process exits on every exit path — success as well as a
fatal error in upload or polling — provided the deletion itself succeeds; a
failure of the deletion is swallowed and never changes the process outcome
(it only leaves the file behind). A fatal error during archiving itself,
however, propagates before the `try`/`finally` is entered, so the cleanup
does not cover it. -/
theorem C5_cleanup (api_dir_exists : Bool) (etRes : Option XmlElem)
    (uploadResp : HttpResp) (polls : Nat → PollResp) (timeout : Nat) :
    ((main_fn api_dir_exists (some etRes) none uploadResp polls timeout
        false).zipOnDisk = false) ∧
    (∀ unlinkRaises : Bool,
      (main_fn api_dir_exists (some etRes) none uploadResp polls timeout
          unlinkRaises).outcome =
        (main_fn api_dir_exists (some etRes) none uploadResp polls timeout
          false).outcome) := by
  constructor
  · cases api_dir_exists with
    | false => rfl
    | true =>
      cases hp : parse_publish_profile etRes with
      | error e => simp [main_fn, hp]
      | ok creds =>
        cases hd : (deploy_zip creds uploadResp polls timeout).result with
        | error e => simp [main_fn, hp, hd]
        | ok v => simp [main_fn, hp, hd]
  · intro unlinkRaises
    cases api_dir_exists with
    | false => rfl
    | true =>
      cases hp : parse_publish_profile etRes with
      | error e => simp [main_fn, hp]
      | ok creds =>
        cases hd : (deploy_zip creds uploadResp polls timeout).result with
        | error e => simp [main_fn, hp, hd]
        | ok v => simp [main_fn, hp, hd]

/-- Witness for the amended C5: a run whose deploy step fails (upload 500)
still ends with the archive file removed, and a failing deletion does not
change the outcome. -/
theorem C5_witness :
    ((main_fn true (some (some xmlDocA)) none ⟨500, "boom"⟩ pollsSeqA 300
        false).zipOnDisk = false) ∧
    (∀ unlinkRaises : Bool,
      (main_fn true (some (some xmlDocA)) none ⟨500, "boom"⟩ pollsSeqA 300
          unlinkRaises).outcome =
        (main_fn true (some (some xmlDocA)) none ⟨500, "boom"⟩ pollsSeqA 300
          false).outcome) :=
  C5_cleanup true (some xmlDocA) ⟨500, "boom"⟩ pollsSeqA 300

/-! ### Claim C6 — the archiver

The directory tree handed to `build_zip` is modelled by `FsTree`: a directory
has a name, a list of regular-file names, and a list of subdirectories.
Paths are lists of components; `joinPosix` is `pathlib.PurePath.as_posix`,
the components joined with forward slashes. -/

inductive FsTree where
  | dir (name : String) (files : List String) (subs : List FsTree)

def FsTree.name : FsTree → String
  | .dir n _ _ => n

mutual
/-- `os.walk(api_dir)` (top-down): every directory of the tree paired with
its regular files. `dirpath` is the path of the directory containing the
tree, so the root of tree `t` is visited as `dirpath ++ [t.name]`. -/
def walk (dirpath : List String) : FsTree → List (List String × List String)
  | .dir name files subs => (dirpath ++ [name], files) :: walkList (dirpath ++ [name]) subs

def walkList (dirpath : List String) : List FsTree → List (List String × List String)
  | [] => []
  | t :: rest => walk dirpath t ++ walkList dirpath rest
end

/-- `full.relative_to(base)` for `base` a prefix of `full`: drop the base
components. -/
def relative_to (full base : List String) : List String :=
  full.drop base.length

/-- `PurePath.as_posix()`: components joined with forward slashes. -/
def joinPosix : List String → String
  | [] => ""
  | [a] => a
  | a :: rest => a ++ "/" ++ joinPosix rest

/-- `build_zip` (deploy_azure.py lines 35-41): for every directory `root` and
file `f` found by `os.walk(api_dir)`, the archive receives an entry at
`(Path(root) / f).relative_to(api_dir.parent).as_posix()`. `parent` is
`api_dir.parent` as a component list; the result is the list of entry names
in traversal order. -/
def build_zip (parent : List String) (t : FsTree) : List String :=
  ((walk parent t).map
    (fun rf => rf.2.map (fun f => joinPosix (relative_to (rf.1 ++ [f]) parent)))).flatten

mutual
/-- The archive entry paths of `t`, as component lists relative to the parent
of `t`: `[t.name, f]` for a file `f` directly in `t`, and `t.name :: p` for an
entry `p` of a subdirectory. -/
def entriesC : FsTree → List (List String)
  | .dir name files subs =>
    files.map (fun f => [name, f]) ++ (entriesListC subs).map (fun p => name :: p)

def entriesListC : List FsTree → List (List String)
  | [] => []
  | s :: ss => entriesC s ++ entriesListC ss
end

mutual
/-- `fileInB t p = true` iff `p` is the path (relative to `t`'s parent, so
starting with `t.name`) of a regular file of the tree `t`. -/
def fileInB : FsTree → List String → Bool
  | .dir name files subs, p =>
    match p with
    | [] => false
    | n :: rest =>
      n == name &&
        ((match rest with
          | [f] => files.contains f
          | _ => false) || fileInListB subs rest)

def fileInListB : List FsTree → List String → Bool
  | [], _ => false
  | s :: ss, p => fileInB s p || fileInListB ss p
end

/-- A usable file or directory name: nonempty and without a slash. -/
def goodNameB (s : String) : Bool :=
  s ≠ "" && !s.data.contains '/'

/-- All elements distinct (the filesystem invariant: names are unique within
a directory). -/
def distinctB : List String → Bool
  | [] => true
  | x :: xs => !xs.contains x && distinctB xs

mutual
/-- Filesystem validity: names are nonempty, slash-free and unique within
each directory, recursively. -/
def validTreeB : FsTree → Bool
  | .dir name files subs =>
    goodNameB name && files.all goodNameB && distinctB files &&
      distinctB (subs.map FsTree.name) && validListB subs

def validListB : List FsTree → Bool
  | [] => true
  | s :: ss => validTreeB s && validListB ss
end

mutual
/-- The tree contains no regular files at all. -/
def noFilesB : FsTree → Bool
  | .dir _ files subs => files.isEmpty && noFilesListB subs

def noFilesListB : List FsTree → Bool
  | [] => true
  | s :: ss => noFilesB s && noFilesListB ss
end

/-- Strong induction on `FsTree` through the nested `List`. -/
theorem fsInd (P : FsTree → Prop)
    (h : ∀ n fs subs, (∀ s ∈ subs, P s) → P (.dir n fs subs)) : ∀ t, P t := by
  have key : ∀ N (t : FsTree), sizeOf t ≤ N → P t := by
    intro N
    induction N with
    | zero =>
      intro t ht
      cases t with
      | dir n fs subs => simp at ht
    | succ N ih =>
      intro t ht
      cases t with
      | dir n fs subs =>
        refine h n fs subs (fun s hs => ih s ?_)
        have hlt := List.sizeOf_lt_of_mem hs
        simp at ht
        omega
  intro t
  exact key (sizeOf t) t le_rfl

theorem walkList_shift (subs : List FsTree)
    (IH : ∀ s ∈ subs, ∀ d, walk d s = (walk [] s).map (fun rf => (d ++ rf.1, rf.2))) :
    ∀ d, walkList d subs = (walkList [] subs).map (fun rf => (d ++ rf.1, rf.2)) := by
  induction subs with
  | nil => intro d; simp [walkList]
  | cons s ss ih =>
    intro d
    simp only [walkList, List.map_append]
    rw [IH s (by simp) d, ih (fun s' hs' d' => IH s' (by simp [hs']) d') d]

theorem walk_shift :
    ∀ t : FsTree, ∀ d, walk d t = (walk [] t).map (fun rf => (d ++ rf.1, rf.2)) := by
  refine fsInd _ ?_
  intro n fs subs IH d
  simp only [walk, List.nil_append, List.map_cons]
  rw [walkList_shift subs IH (d ++ [n]), walkList_shift subs IH [n]]
  simp [List.map_map, Function.comp_def, List.append_assoc]

/-- The archive entry component-paths produced from the walk of `t`, before
joining with slashes, when the walk starts at the empty dirpath. -/
def rawE (t : FsTree) : List (List String) :=
  ((walk [] t).map (fun rf => rf.2.map (fun f => rf.1 ++ [f]))).flatten

def rawEList (subs : List FsTree) : List (List String) :=
  ((walkList [] subs).map (fun rf => rf.2.map (fun f => rf.1 ++ [f]))).flatten

theorem rawEList_eq (subs : List FsTree)
    (IH : ∀ s ∈ subs, rawE s = entriesC s) : rawEList subs = entriesListC subs := by
  induction subs with
  | nil => simp [rawEList, walkList, entriesListC]
  | cons s ss ih =>
    have hs : rawE s = entriesC s := IH s (by simp)
    have hss : rawEList ss = entriesListC ss :=
      ih (fun s' hs' => IH s' (by simp [hs']))
    simp only [rawEList, walkList, List.map_append, List.flatten_append, entriesListC]
    rw [show ((walk [] s).map (fun rf => rf.2.map (fun f => rf.1 ++ [f]))).flatten
        = rawE s from rfl, hs,
      show ((walkList [] ss).map (fun rf => rf.2.map (fun f => rf.1 ++ [f]))).flatten
        = rawEList ss from rfl, hss]

theorem flatten_map_cons (L : List (List String × List String)) (n : String) :
    (L.map (fun rf => List.map (fun f => n :: (rf.1 ++ [f])) rf.2)).flatten
      = List.map (fun p => n :: p)
          ((L.map (fun rf => List.map (fun f => rf.1 ++ [f]) rf.2)).flatten) := by
  induction L with
  | nil => simp
  | cons rf L ih =>
    simp only [List.map_cons, List.flatten_cons, List.map_append, List.map_map,
      Function.comp_def]
    rw [ih]

theorem rawE_eq : ∀ t : FsTree, rawE t = entriesC t := by
  refine fsInd _ ?_
  intro n fs subs IH
  simp only [rawE, walk, List.map_cons, List.flatten_cons, entriesC, List.nil_append]
  rw [walkList_shift subs (fun s _ => walk_shift s) [n], List.map_map]
  congr 1
  · have hcomp : ((fun rf : List String × List String =>
        List.map (fun f => rf.1 ++ [f]) rf.2) ∘
          (fun rf : List String × List String => ([n] ++ rf.1, rf.2)))
        = fun rf : List String × List String =>
            List.map (fun f => n :: (rf.1 ++ [f])) rf.2 := by
      funext rf
      rfl
    rw [hcomp, flatten_map_cons]
    rw [show ((walkList [] subs).map
        (fun rf => List.map (fun f => rf.1 ++ [f]) rf.2)).flatten
      = rawEList subs from rfl]
    rw [rawEList_eq subs IH]

theorem build_zip_eq (parent : List String) (t : FsTree) :
    build_zip parent t = (entriesC t).map joinPosix := by
  rw [← rawE_eq t]
  simp only [build_zip, relative_to]
  rw [walk_shift t parent, List.map_map]
  have hcomp : ((fun rf : List String × List String =>
      rf.2.map (fun f => joinPosix ((rf.1 ++ [f]).drop parent.length))) ∘
        (fun rf : List String × List String => (parent ++ rf.1, rf.2)))
      = fun rf : List String × List String =>
          List.map joinPosix (rf.2.map (fun f => rf.1 ++ [f])) := by
    funext rf
    simp only [Function.comp_apply, List.map_map, Function.comp_def]
    congr 1
    funext f
    rw [List.append_assoc, List.drop_left]
  rw [hcomp, rawE, List.map_flatten, List.map_map]
  rfl

theorem mem_entriesListC (subs : List FsTree) (p : List String) :
    p ∈ entriesListC subs ↔ ∃ s ∈ subs, p ∈ entriesC s := by
  induction subs with
  | nil => simp [entriesListC]
  | cons s ss ih => simp [entriesListC, List.mem_append, ih]

theorem fileInListB_iff (subs : List FsTree) (p : List String) :
    fileInListB subs p = true ↔ ∃ s ∈ subs, fileInB s p = true := by
  induction subs with
  | nil => simp [fileInListB]
  | cons s ss ih => simp [fileInListB, Bool.or_eq_true, ih]

theorem fileInB_nil_false : ∀ t : FsTree, fileInB t [] = false := by
  intro t
  cases t with
  | dir n fs subs => rfl

theorem mem_entriesC_iff : ∀ t : FsTree, ∀ p, p ∈ entriesC t ↔ fileInB t p = true := by
  refine fsInd _ ?_
  intro n fs subs IH p
  cases p with
  | nil =>
    simp only [entriesC, List.mem_append, List.mem_map]
    rw [fileInB_nil_false]
    simp
  | cons m rest =>
    simp only [entriesC, List.mem_append, List.mem_map, fileInB, Bool.and_eq_true,
      Bool.or_eq_true, beq_iff_eq, fileInListB_iff]
    constructor
    · rintro (⟨f, hf, hEq⟩ | ⟨q, hq, hEq⟩)
      · injection hEq with h1 h2
        subst h1
        subst h2
        exact ⟨rfl, Or.inl (List.elem_eq_true_of_mem hf)⟩
      · injection hEq with h1 h2
        subst h1
        subst h2
        obtain ⟨s, hs, hmem⟩ := (mem_entriesListC subs q).mp hq
        exact ⟨rfl, Or.inr ⟨s, hs, (IH s hs q).mp hmem⟩⟩
    · rintro ⟨hm, hrest | ⟨s, hs, hfile⟩⟩
      · subst hm
        cases rest with
        | nil => exact absurd hrest (by simp)
        | cons f rest' =>
          cases rest' with
          | nil =>
            exact Or.inl ⟨f, List.mem_of_elem_eq_true hrest, rfl⟩
          | cons g rest'' => exact absurd hrest (by simp)
      · subst hm
        refine Or.inr ⟨rest, ?_, rfl⟩
        exact (mem_entriesListC subs rest).mpr ⟨s, hs, (IH s hs rest).mpr hfile⟩

theorem entriesC_shape : ∀ t : FsTree, ∀ q ∈ entriesC t,
    ∃ r, q = t.name :: r ∧ r ≠ [] := by
  refine fsInd _ ?_
  intro n fs subs IH q hq
  simp only [entriesC, List.mem_append, List.mem_map] at hq
  rcases hq with ⟨f, _, hEq⟩ | ⟨p, hp, hEq⟩
  · exact ⟨[f], hEq.symm, by simp⟩
  · obtain ⟨s, hs, hmem⟩ := (mem_entriesListC subs p).mp hp
    obtain ⟨r, hr, _⟩ := IH s hs p hmem
    exact ⟨p, hEq.symm, by simp [hr]⟩

theorem entriesC_len2 : ∀ t : FsTree, ∀ q ∈ entriesC t, 2 ≤ q.length := by
  intro t q hq
  obtain ⟨r, hr, hne⟩ := entriesC_shape t q hq
  subst hr
  cases r with
  | nil => exact absurd rfl hne
  | cons a r' => simp

theorem distinctB_iff : ∀ l : List String, distinctB l = true ↔ l.Nodup := by
  intro l
  induction l with
  | nil => simp [distinctB]
  | cons x xs ih =>
    simp only [distinctB, Bool.and_eq_true, Bool.not_eq_true', List.nodup_cons]
    constructor
    · rintro ⟨hc, hd⟩
      refine ⟨fun hmem => ?_, ih.mp hd⟩
      have h : xs.contains x = true := List.elem_eq_true_of_mem hmem
      rw [hc] at h
      exact Bool.false_ne_true h
    · rintro ⟨hmem, hd⟩
      refine ⟨?_, ih.mpr hd⟩
      cases hc : xs.contains x with
      | false => rfl
      | true => exact absurd (List.mem_of_elem_eq_true hc) hmem

theorem validListB_forall (subs : List FsTree) (h : validListB subs = true) :
    ∀ s ∈ subs, validTreeB s = true := by
  induction subs with
  | nil => intro s hs; simp at hs
  | cons s' ss ih =>
    simp only [validListB, Bool.and_eq_true] at h
    intro s hs
    rcases List.mem_cons.mp hs with hEq | hmem
    · rw [hEq]; exact h.1
    · exact ih h.2 s hmem

theorem entriesListC_nodup (subs : List FsTree)
    (IHn : ∀ s ∈ subs, (entriesC s).Nodup)
    (hnames : (subs.map FsTree.name).Nodup) : (entriesListC subs).Nodup := by
  induction subs with
  | nil => simp [entriesListC]
  | cons s ss ih =>
    simp only [List.map_cons, List.nodup_cons] at hnames
    simp only [entriesListC]
    refine List.Nodup.append (IHn s (by simp)) (ih (fun s' hs' => IHn s' (by simp [hs'])) hnames.2) ?_
    intro q hqs hqss
    obtain ⟨r, hr, _⟩ := entriesC_shape s q hqs
    obtain ⟨s', hs', hmem'⟩ := (mem_entriesListC ss q).mp hqss
    obtain ⟨r', hr', _⟩ := entriesC_shape s' q hmem'
    have : s.name = s'.name := by
      rw [hr] at hr'
      exact (List.cons.inj hr').1
    exact hnames.1 (this ▸ List.mem_map_of_mem FsTree.name hs')

theorem entriesC_nodup : ∀ t : FsTree, validTreeB t = true → (entriesC t).Nodup := by
  refine fsInd _ ?_
  intro n fs subs IH hv
  simp only [validTreeB, Bool.and_eq_true] at hv
  obtain ⟨⟨⟨⟨hgn, hga⟩, hdf⟩, hdn⟩, hvl⟩ := hv
  simp only [entriesC]
  refine List.Nodup.append ?_ ?_ ?_
  · exact List.Nodup.map (fun a b h => by simpa using h) ((distinctB_iff fs).mp hdf)
  · refine List.Nodup.map (fun a b h => by simpa using h) ?_
    exact entriesListC_nodup subs
      (fun s hs => IH s hs (validListB_forall subs hvl s hs))
      ((distinctB_iff _).mp hdn)
  · intro q hqf hqm
    simp only [List.mem_map] at hqf hqm
    obtain ⟨f, _, hEq⟩ := hqf
    obtain ⟨p, hp, hEq'⟩ := hqm
    obtain ⟨s, hs, hmem⟩ := (mem_entriesListC subs p).mp hp
    have h2 : q.length = 2 := by rw [← hEq]; rfl
    have h3 : 3 ≤ q.length := by
      rw [← hEq']
      have := entriesC_len2 s p hmem
      simp
      omega
    omega

/-- A path all of whose components are usable names. -/
def goodPath (p : List String) : Prop :=
  p ≠ [] ∧ ∀ c ∈ p, goodNameB c = true

theorem entriesC_good : ∀ t : FsTree, validTreeB t = true →
    ∀ q ∈ entriesC t, goodPath q := by
  refine fsInd _ ?_
  intro n fs subs IH hv q hq
  simp only [validTreeB, Bool.and_eq_true] at hv
  obtain ⟨⟨⟨⟨hgn, hga⟩, _⟩, _⟩, hvl⟩ := hv
  simp only [entriesC, List.mem_append, List.mem_map] at hq
  rcases hq with ⟨f, hf, hEq⟩ | ⟨p, hp, hEq⟩
  · subst hEq
    refine ⟨by simp, ?_⟩
    intro c hc
    rcases List.mem_cons.mp hc with h | h
    · rw [h]; exact hgn
    · rw [List.mem_singleton.mp h]
      exact List.all_eq_true.mp hga f hf
  · subst hEq
    obtain ⟨s, hs, hmem⟩ := (mem_entriesListC subs p).mp hp
    obtain ⟨_, hall⟩ := IH s hs (validListB_forall subs hvl s hs) p hmem
    refine ⟨by simp, ?_⟩
    intro c hc
    rcases List.mem_cons.mp hc with h | h
    · rw [h]; exact hgn
    · exact hall c h

theorem slash_not_mem_of_good (a : String) (h : goodNameB a = true) :
    '/' ∉ a.data := by
  simp only [goodNameB, Bool.and_eq_true, Bool.not_eq_true'] at h
  intro hmem
  have hc : a.data.contains '/' = true := List.elem_eq_true_of_mem hmem
  rw [h.2] at hc
  exact Bool.false_ne_true hc

theorem append_slash_inj : ∀ (u v x y : List Char), '/' ∉ u → '/' ∉ v →
    u ++ '/' :: x = v ++ '/' :: y → u = v ∧ x = y := by
  intro u
  induction u with
  | nil =>
    intro v x y _ hv h
    cases v with
    | nil => simpa using h
    | cons b v' =>
      simp only [List.nil_append, List.cons_append, List.cons.injEq] at h
      exact absurd (h.1 ▸ List.mem_cons_self b v') hv
  | cons a u' ih =>
    intro v x y hu hv h
    cases v with
    | nil =>
      simp only [List.nil_append, List.cons_append, List.cons.injEq] at h
      exact absurd (h.1 ▸ List.mem_cons_self a u') hu
    | cons b v' =>
      simp only [List.cons_append, List.cons.injEq] at h
      obtain ⟨h1, h2⟩ := h
      obtain ⟨hu', hxy⟩ := ih v' x y
        (fun hm => hu (List.mem_cons_of_mem a hm))
        (fun hm => hv (List.mem_cons_of_mem b hm)) h2
      exact ⟨by rw [h1, hu'], hxy⟩

theorem joinPosix_data_cons (a : String) (b : String) (rest : List String) :
    (joinPosix (a :: b :: rest)).data = a.data ++ '/' :: (joinPosix (b :: rest)).data := by
  show (a ++ "/" ++ joinPosix (b :: rest)).data = _
  rw [String.data_append, String.data_append, List.append_assoc]
  rfl

theorem joinPosix_inj : ∀ (p q : List String), goodPath p → goodPath q →
    joinPosix p = joinPosix q → p = q
  | [], _, hp, _, _ => absurd rfl hp.1
  | _ :: _, [], _, hq, _ => absurd rfl hq.1
  | [a], [b], _, _, h => by rw [show joinPosix [a] = a from rfl,
      show joinPosix [b] = b from rfl] at h; rw [h]
  | [a], b :: c :: q', hp, hq, h => by
    exfalso
    have hd := congrArg String.data h
    rw [show (joinPosix [a]).data = a.data from rfl, joinPosix_data_cons] at hd
    have : '/' ∈ a.data := by
      rw [hd]
      exact List.mem_append_right _ (List.mem_cons_self _ _)
    exact slash_not_mem_of_good a (hp.2 a (by simp)) this
  | a :: b :: p', [c], hp, hq, h => by
    exfalso
    have hd := congrArg String.data h
    rw [show (joinPosix [c]).data = c.data from rfl, joinPosix_data_cons] at hd
    have : '/' ∈ c.data := by
      rw [← hd]
      exact List.mem_append_right _ (List.mem_cons_self _ _)
    exact slash_not_mem_of_good c (hq.2 c (by simp)) this
  | a :: b :: p', c :: d :: q', hp, hq, h => by
    have hd := congrArg String.data h
    rw [joinPosix_data_cons, joinPosix_data_cons] at hd
    obtain ⟨h1, h2⟩ := append_slash_inj a.data c.data _ _
      (slash_not_mem_of_good a (hp.2 a (by simp)))
      (slash_not_mem_of_good c (hq.2 c (by simp))) hd
    have hac : a = c := String.ext h1
    have htail : joinPosix (b :: p') = joinPosix (d :: q') := String.ext h2
    have hrec := joinPosix_inj (b :: p') (d :: q')
      ⟨by simp, fun x hx => hp.2 x (List.mem_cons_of_mem a hx)⟩
      ⟨by simp, fun x hx => hq.2 x (List.mem_cons_of_mem c hx)⟩ htail
    rw [hac, hrec]

theorem entriesListC_nil_of_noFiles (subs : List FsTree)
    (IH : ∀ s ∈ subs, noFilesB s = true → entriesC s = [])
    (h : noFilesListB subs = true) : entriesListC subs = [] := by
  induction subs with
  | nil => rfl
  | cons s ss ih =>
    simp only [noFilesListB, Bool.and_eq_true] at h
    simp only [entriesListC]
    rw [IH s (by simp) h.1, ih (fun s' hs' => IH s' (by simp [hs'])) h.2]
    rfl

theorem entriesC_nil_of_noFiles : ∀ t : FsTree, noFilesB t = true → entriesC t = [] := by
  refine fsInd _ ?_
  intro n fs subs IH h
  simp only [noFilesB, Bool.and_eq_true] at h
  have hfs : fs = [] := List.isEmpty_iff.mp h.1
  simp only [entriesC, hfs, List.map_nil, List.nil_append]
  rw [entriesListC_nil_of_noFiles subs IH h.2]
  rfl

/-- C6: for every valid source directory tree (names nonempty, slash-free and
unique within each directory), each regular file found by the recursive
traversal appears exactly once in the archive produced by `build_zip`, at the
path `<dirname>/<relative path>` joined with forward slashes (`fileInB t p`
says exactly that `p` is `t.name` followed by the file's path relative to
`t`); every archive entry is such a file path; and a tree without files
contributes no entries. -/
theorem C6_zip_entries (parent : List String) (t : FsTree)
    (hv : validTreeB t = true) :
    (∀ p, fileInB t p = true → (build_zip parent t).count (joinPosix p) = 1) ∧
    (∀ e ∈ build_zip parent t, ∃ p, fileInB t p = true ∧ e = joinPosix p) ∧
    (noFilesB t = true → build_zip parent t = []) := by
  have hb := build_zip_eq parent t
  have hnodup : (build_zip parent t).Nodup := by
    rw [hb]
    exact List.Nodup.map_on (fun x hx y hy hxy =>
      joinPosix_inj x y (entriesC_good t hv x hx) (entriesC_good t hv y hy) hxy)
      (entriesC_nodup t hv)
  refine ⟨?_, ?_, ?_⟩
  · intro p hf
    have hmem : p ∈ entriesC t := (mem_entriesC_iff t p).mpr hf
    have hin : joinPosix p ∈ build_zip parent t := by
      rw [hb]
      exact List.mem_map_of_mem joinPosix hmem
    exact List.count_eq_one_of_mem hnodup hin
  · intro e he
    rw [hb] at he
    obtain ⟨p, hp, hEq⟩ := List.mem_map.mp he
    exact ⟨p, (mem_entriesC_iff t p).mp hp, hEq.symm⟩
  · intro hnf
    rw [hb, entriesC_nil_of_noFiles t hnf]
    rfl

/-- Concrete tree for the C6 witness: `api/` with one file, one populated
subdirectory and one empty subdirectory. -/
def fsTreeA : FsTree :=
  .dir "api" ["host.json"] [.dir "fns" ["run.py"] [], .dir "empty" [] []]

/-- Witness for C6 on `fsTreeA` under parent directory `repo`. -/
theorem C6_witness :
    (∀ p, fileInB fsTreeA p = true →
        (build_zip ["repo"] fsTreeA).count (joinPosix p) = 1) ∧
    (∀ e ∈ build_zip ["repo"] fsTreeA,
        ∃ p, fileInB fsTreeA p = true ∧ e = joinPosix p) ∧
    (noFilesB fsTreeA = true → build_zip ["repo"] fsTreeA = []) :=
  C6_zip_entries ["repo"] fsTreeA (by decide)
